import Mathlib

/-!
Verification development for the phantom-lens audio pipeline
(`src/native/phantom-audio/src/`).

The C++ sources are shallowly embedded here:
* `audio_resampler.cpp` — `AudioResampler` with its `process` loop;
* `whisper_wrapper.cpp` — the windowing buffer (`addAudioChunk`, the
  extraction and salvage logic of `processLoop`), `trimSilence`, and the
  dispatch decision before `transcribe`;
* `audio_capture.cpp` — the per-packet sample-encoding conversion of
  `captureLoop`.

Samples and interpolation positions are modelled by exact rationals `ℚ`
(the C++ code uses `float` samples and `double` positions); `size_t`
counters become `ℕ`, with wrap-around modelled explicitly where the C++
subtraction can underflow.  The `while` loop of `AudioResampler::process`
is embedded with an explicit fuel argument; the fuel supplied by `process`
is proved sufficient whenever the conversion ratio is positive, which is
the case for every resampler the program constructs.
-/

namespace Phantom

/-- `WhisperWrapper::SAMPLE_RATE` (whisper_wrapper.h line 89). -/
def SAMPLE_RATE : ℕ := 16000

/-! ## AudioResampler (audio_resampler.h / audio_resampler.cpp) -/

/-- State of `phantom::AudioResampler` (audio_resampler.h lines 38-46).
Field names follow the C++ members. -/
structure AudioResampler where
  m_inputSampleRate : ℕ
  m_inputChannels : ℕ
  m_outputSampleRate : ℕ
  m_ratio : ℚ
  m_lastSample : ℚ
  m_fractionalPosition : ℚ
deriving DecidableEq

/-- The constructor `AudioResampler::AudioResampler` (audio_resampler.cpp
lines 7-15): stores the rates and channel count, sets
`m_ratio = inputSampleRate / outputSampleRate`, `m_lastSample = 0`,
`m_fractionalPosition = 0`. -/
def AudioResampler.init (inputSampleRate inputChannels outputSampleRate : ℕ) :
    AudioResampler :=
  { m_inputSampleRate := inputSampleRate
    m_inputChannels := inputChannels
    m_outputSampleRate := outputSampleRate
    m_ratio := (inputSampleRate : ℚ) / (outputSampleRate : ℚ)
    m_lastSample := 0
    m_fractionalPosition := 0 }

/-- `AudioResampler::reset` (audio_resampler.cpp lines 73-76). -/
def AudioResampler.reset (r : AudioResampler) : AudioResampler :=
  { r with m_lastSample := 0, m_fractionalPosition := 0 }

/-- `static_cast<size_t>(position)` (audio_resampler.cpp line 51): C++
float-to-integer conversion truncates toward zero; for the nonnegative
positions that occur this is `⌊position⌋` as a natural number. -/
def truncIndex (q : ℚ) : ℕ := (⌊q⌋).toNat

/-- Mono downmix of one frame (audio_resampler.cpp lines 22-34): channel
count 1 is a plain copy, otherwise all channels of frame `i` are summed in
order and divided by the channel count.  `input` is the interleaved sample
pointer, modelled as a total function. -/
def monoFrame (input : ℕ → ℚ) (channels : ℕ) (i : ℕ) : ℚ :=
  if channels = 1 then input i
  else (((List.range channels).map fun ch => input (i * channels + ch)).sum) / (channels : ℚ)

/-- The `while (position < numFrames)` loop of `AudioResampler::process`
(audio_resampler.cpp lines 50-62), with explicit fuel.  Each iteration
truncates the position to an index, linearly interpolates between
`mono[index]` and `mono[index+1]` (clamped to `mono[index]` when the
successor is out of range), emits the sample, and advances the position by
the ratio.  Returns the emitted samples and the final position. -/
def resampleLoop (mono : ℕ → ℚ) (numFrames : ℕ) (ratio : ℚ) :
    ℕ → ℚ → List ℚ × ℚ
  | 0, position => ([], position)
  | fuel + 1, position =>
    if position < (numFrames : ℚ) then
      let index : ℕ := truncIndex position
      let frac : ℚ := position - (index : ℚ)
      let currentSample : ℚ := mono index
      let nextSample : ℚ := if index + 1 < numFrames then mono (index + 1) else currentSample
      let interpolated : ℚ := currentSample * (1 - frac) + nextSample * frac
      let rest := resampleLoop mono numFrames ratio fuel (position + ratio)
      (interpolated :: rest.1, rest.2)
    else ([], position)

/-- `AudioResampler::process` (audio_resampler.cpp lines 17-71).
`input = none` models a null input pointer.  Returns the output samples
and the successor state.  The fuel `numFrames * m_ratio.den + 1` bounds the
loop's iteration count whenever `0 < m_ratio` (proved below); with it the
embedding agrees with the C++ loop on every state the program can build. -/
def AudioResampler.process (r : AudioResampler) (input : Option (ℕ → ℚ))
    (numFrames : ℕ) : List ℚ × AudioResampler :=
  if numFrames = 0 then ([], r)
  else
    match input with
    | none => ([], r)
    | some inp =>
      let mono : ℕ → ℚ := monoFrame inp r.m_inputChannels
      if r.m_inputSampleRate = r.m_outputSampleRate then
        ((List.range numFrames).map mono, r)
      else
        let fuel : ℕ := numFrames * r.m_ratio.den + 1
        let res := resampleLoop mono numFrames r.m_ratio fuel r.m_fractionalPosition
        (res.1,
          { r with
            m_lastSample := if 0 < numFrames then mono (numFrames - 1) else r.m_lastSample
            m_fractionalPosition := res.2 - (numFrames : ℚ) })

/-- One resampling session: fold `process` over a list of calls, keeping
only the evolving state.  Each call is an input pointer and a frame count. -/
def runCalls (r : AudioResampler) (calls : List (Option (ℕ → ℚ) × ℕ)) : AudioResampler :=
  calls.foldl (fun s c => (AudioResampler.process s c.1 c.2).2) r

/-- The outputs of successive `process` calls in a session. -/
def runCallsOutputs (r : AudioResampler) : List (Option (ℕ → ℚ) × ℕ) → List (List ℚ)
  | [] => []
  | c :: cs =>
    let p := AudioResampler.process r c.1 c.2
    p.1 :: runCallsOutputs p.2 cs

/-- Two resampler states that agree on every field except `m_lastSample`. -/
def sameExceptLast (r1 r2 : AudioResampler) : Prop :=
  r1.m_inputSampleRate = r2.m_inputSampleRate ∧
  r1.m_inputChannels = r2.m_inputChannels ∧
  r1.m_outputSampleRate = r2.m_outputSampleRate ∧
  r1.m_ratio = r2.m_ratio ∧
  r1.m_fractionalPosition = r2.m_fractionalPosition

instance (r1 r2 : AudioResampler) : Decidable (sameExceptLast r1 r2) := by
  unfold sameExceptLast; infer_instance

/-! ## Easy resampler claims -/

/-- C8: `process` with a null input pointer, or with zero frames, returns
an empty output and leaves the whole resampler state unchanged
(audio_resampler.cpp lines 18-20). -/
theorem c8_null_or_empty_input_is_noop (r : AudioResampler) (n : ℕ) (f : ℕ → ℚ) :
    r.process none n = ([], r) ∧ r.process (some f) 0 = ([], r) := by
  constructor
  · unfold AudioResampler.process
    split <;> rfl
  · rfl

/-- C6: when the configured source rate equals the target rate, `process`
returns exactly the per-frame average of all channels (a plain copy for one
channel), with no resampling applied (audio_resampler.cpp lines 22-39). -/
theorem c6_equal_rates_mono_downmix (rate ch : ℕ) (hch : 1 ≤ ch) (f : ℕ → ℚ) (n : ℕ) :
    ((AudioResampler.init rate ch rate).process (some f) n).1 =
      (List.range n).map
        (fun i => (((List.range ch).map fun c => f (i * ch + c)).sum) / (ch : ℚ)) := by
  have hmono : monoFrame f ch =
      fun i => (((List.range ch).map fun c => f (i * ch + c)).sum) / (ch : ℚ) := by
    funext i
    unfold monoFrame
    by_cases h1 : ch = 1
    · subst h1
      simp [List.range_succ]
    · rw [if_neg h1]
  by_cases hn : n = 0
  · simp [hn, AudioResampler.process]
  · simp [AudioResampler.process, hn, AudioResampler.init, hmono]

/-- Witness for `c6_equal_rates_mono_downmix`: a 2-channel resampler at
8 kHz in and out, on two frames of the ramp input. -/
theorem c6_equal_rates_mono_downmix_witness :
    1 ≤ 2 ∧
    ((AudioResampler.init 8000 2 8000).process (some fun i => (i : ℚ)) 2).1 =
      (List.range 2).map
        (fun i => (((List.range 2).map fun c => ((i * 2 + c : ℕ) : ℚ)).sum) / ((2 : ℕ) : ℚ)) :=
  ⟨by decide, c6_equal_rates_mono_downmix 8000 2 (by decide) (fun i => (i : ℚ)) 2⟩

/-- C4 (code bug): resampling a stream in one `process` call and resampling
the same stream split into consecutive blocks do not agree, and the
discrepancy is exact arithmetic, not floating-point tolerance.  With an
8000 Hz mono source resampled to 16000 Hz (ratio 1/2), the stream
`[0, 100]` processed in one call yields `[0, 50, 100, 100]`, while the same
stream processed as blocks `[0]` then `[100]` yields `[0, 0, 100, 100]`:
at virtual position 1/2 the split run clamps to the first block's last
sample instead of interpolating toward the next block's first sample
(audio_resampler.cpp lines 50-62; the carried `m_lastSample`, loaded into
`prevSample` at line 48, is never used). -/
theorem c4_split_processing_diverges :
    ((AudioResampler.init 8000 1 16000).process
        (some fun i => if i = 0 then (0:ℚ) else 100) 2).1 = [0, 50, 100, 100] ∧
    (((AudioResampler.init 8000 1 16000).process (some fun _ => (0:ℚ)) 1).1 ++
      (((AudioResampler.init 8000 1 16000).process (some fun _ => (0:ℚ)) 1).2.process
        (some fun _ => (100:ℚ)) 1).1) = [0, 0, 100, 100] ∧
    ([0, 0, 100, 100] : List ℚ) ≠ [0, 50, 100, 100] := by
  refine ⟨?_, ?_, by norm_num⟩ <;>
    norm_num [AudioResampler.process, AudioResampler.init, resampleLoop, monoFrame, truncIndex]

/-- One `process` call reads none of its result from `m_lastSample`: states
equal up to `m_lastSample` produce equal outputs and successor states again
equal up to `m_lastSample` (the C++ loop loads `prevSample = m_lastSample`
at audio_resampler.cpp line 48 and never uses it). -/
lemma process_ignores_lastSample (r1 r2 : AudioResampler) (h : sameExceptLast r1 r2)
    (input : Option (ℕ → ℚ)) (n : ℕ) :
    (r1.process input n).1 = (r2.process input n).1 ∧
    sameExceptLast (r1.process input n).2 (r2.process input n).2 := by
  obtain ⟨a, b, c, d, l1, p⟩ := r1
  obtain ⟨a', b', c', d', l2, p'⟩ := r2
  obtain ⟨h1, h2, h3, h4, h5⟩ := h
  simp only at h1 h2 h3 h4 h5
  subst h1; subst h2; subst h3; subst h4; subst h5
  unfold AudioResampler.process
  by_cases hn : n = 0
  · simp [hn, sameExceptLast]
  · cases input with
    | none => simp [hn, sameExceptLast]
    | some inp =>
      by_cases hr : a = c
      · simp [hn, hr, sameExceptLast]
      · simp [hn, hr, sameExceptLast]

/-- Session version of `process_ignores_lastSample`. -/
lemma runCalls_ignores_lastSample (calls : List (Option (ℕ → ℚ) × ℕ)) :
    ∀ (r1 r2 : AudioResampler), sameExceptLast r1 r2 →
      runCallsOutputs r1 calls = runCallsOutputs r2 calls ∧
      sameExceptLast (runCalls r1 calls) (runCalls r2 calls) := by
  induction calls with
  | nil => intro r1 r2 h; exact ⟨rfl, h⟩
  | cons cHead cs ih =>
    intro r1 r2 h
    obtain ⟨ho, hs⟩ := process_ignores_lastSample r1 r2 h cHead.1 cHead.2
    obtain ⟨ho', hs'⟩ := ih _ _ hs
    refine ⟨?_, ?_⟩
    · simp only [runCallsOutputs]
      rw [ho, ho']
    · simpa only [runCalls, List.foldl_cons] using hs'

/-- C10: the carried last emitted sample never influences any emitted
sample or the stored fractional phase: any two resampler states that agree
on everything except `m_lastSample` produce identical outputs over any
sequence of subsequent `process` calls, and identical final fractional
phases. -/
theorem c10_lastSample_noninterference (r1 r2 : AudioResampler)
    (h : sameExceptLast r1 r2) (calls : List (Option (ℕ → ℚ) × ℕ)) :
    runCallsOutputs r1 calls = runCallsOutputs r2 calls ∧
    (runCalls r1 calls).m_fractionalPosition = (runCalls r2 calls).m_fractionalPosition :=
  ⟨(runCalls_ignores_lastSample calls r1 r2 h).1,
   (runCalls_ignores_lastSample calls r1 r2 h).2.2.2.2.2⟩

/-- Witness for `c10_lastSample_noninterference`: two freshly configured
48 kHz stereo resamplers whose stored last samples differ (0 versus 5),
run over one 3-frame call. -/
theorem c10_lastSample_noninterference_witness :
    sameExceptLast (AudioResampler.init 48000 2 16000)
      { AudioResampler.init 48000 2 16000 with m_lastSample := 5 } ∧
    (runCallsOutputs (AudioResampler.init 48000 2 16000) [(some fun i => (i : ℚ), 3)] =
      runCallsOutputs { AudioResampler.init 48000 2 16000 with m_lastSample := 5 }
        [(some fun i => (i : ℚ), 3)] ∧
    (runCalls (AudioResampler.init 48000 2 16000)
        [(some fun i => (i : ℚ), 3)]).m_fractionalPosition =
      (runCalls { AudioResampler.init 48000 2 16000 with m_lastSample := 5 }
        [(some fun i => (i : ℚ), 3)]).m_fractionalPosition) :=
  ⟨⟨rfl, rfl, rfl, rfl, rfl⟩,
    c10_lastSample_noninterference (AudioResampler.init 48000 2 16000)
      { AudioResampler.init 48000 2 16000 with m_lastSample := 5 }
      ⟨rfl, rfl, rfl, rfl, rfl⟩ [(some fun i => (i : ℚ), 3)]⟩

/-! ## Fractional-phase invariant (C9) -/

/-- If the supplied fuel covers the distance to `numFrames`, the final
position returned by `resampleLoop` has reached `numFrames`; moreover it is
either the starting position (loop never ran) or overshot by less than one
`ratio` step. -/
lemma resampleLoop_final (mono : ℕ → ℚ) (n : ℕ) (ratio : ℚ) :
    ∀ (fuel : ℕ) (pos : ℚ), (n : ℚ) ≤ pos + fuel * ratio →
      (n : ℚ) ≤ (resampleLoop mono n ratio fuel pos).2 ∧
      ((resampleLoop mono n ratio fuel pos).2 = pos ∨
        (resampleLoop mono n ratio fuel pos).2 - ratio < n) := by
  intro fuel
  induction fuel with
  | zero =>
    intro pos hfuel
    simp only [resampleLoop]
    refine ⟨by simpa using hfuel, Or.inl (by simp)⟩
  | succ fuel ih =>
    intro pos hfuel
    by_cases hp : pos < (n : ℚ)
    · have hstep : (n : ℚ) ≤ (pos + ratio) + fuel * ratio := by
        have hexp : (((fuel : ℕ) + 1 : ℕ) : ℚ) * ratio = (fuel : ℚ) * ratio + ratio := by
          push_cast; ring
        linarith [hfuel, hexp.symm.le, hexp.le]
      have hrec := ih (pos + ratio) hstep
      simp only [resampleLoop, if_pos hp]
      refine ⟨hrec.1, Or.inr ?_⟩
      rcases hrec.2 with heq | hlt
      · rw [heq]; simpa using hp
      · exact hlt
    · simp only [resampleLoop, if_neg hp]
      exact ⟨le_of_not_lt hp, Or.inl (by simp)⟩

/-- One `process` call keeps `m_ratio` and preserves the phase invariant
`0 ≤ m_fractionalPosition < m_ratio`, provided the ratio is positive. -/
lemma process_preserves_phase (r : AudioResampler) (input : Option (ℕ → ℚ)) (n : ℕ)
    (h0 : 0 ≤ r.m_fractionalPosition) (h1 : r.m_fractionalPosition < r.m_ratio) :
    (r.process input n).2.m_ratio = r.m_ratio ∧
    0 ≤ (r.process input n).2.m_fractionalPosition ∧
    (r.process input n).2.m_fractionalPosition < r.m_ratio := by
  have hr : 0 < r.m_ratio := lt_of_le_of_lt h0 h1
  unfold AudioResampler.process
  by_cases hn : n = 0
  · simp [hn, h0, h1]
  · cases input with
    | none => simp [hn, h0, h1]
    | some inp =>
      by_cases hrate : r.m_inputSampleRate = r.m_outputSampleRate
      · simp [hn, hrate, h0, h1]
      · have hdne : ((r.m_ratio.den : ℚ)) ≠ 0 := by exact_mod_cast r.m_ratio.den_nz
        have hden : (r.m_ratio.den : ℚ) * r.m_ratio = (r.m_ratio.num : ℚ) := by
          have h := Rat.num_div_den r.m_ratio
          rw [div_eq_iff hdne] at h
          rw [mul_comm]; exact h.symm
        have hnum : (1 : ℚ) ≤ (r.m_ratio.num : ℚ) := by
          have : (0 : ℤ) < r.m_ratio.num := Rat.num_pos.mpr hr
          exact_mod_cast this
        have hfuel : (n : ℚ) ≤ r.m_fractionalPosition +
            ((n * r.m_ratio.den + 1 : ℕ) : ℚ) * r.m_ratio := by
          have hexp : ((n * r.m_ratio.den + 1 : ℕ) : ℚ) * r.m_ratio =
              (n : ℚ) * ((r.m_ratio.den : ℚ) * r.m_ratio) + r.m_ratio := by
            push_cast; ring
          rw [hexp, hden]
          have hmul : (n : ℚ) * 1 ≤ (n : ℚ) * (r.m_ratio.num : ℚ) :=
            mul_le_mul_of_nonneg_left hnum (by positivity)
          rw [mul_one] at hmul
          linarith
        obtain ⟨hge, hdisj⟩ :=
          resampleLoop_final (monoFrame inp r.m_inputChannels) n r.m_ratio
            (n * r.m_ratio.den + 1) r.m_fractionalPosition hfuel
        simp only [if_neg hn, if_neg hrate]
        refine ⟨by simp, ?_, ?_⟩
        · simpa using sub_nonneg.mpr hge
        · show (resampleLoop (monoFrame inp r.m_inputChannels) n r.m_ratio
              (n * r.m_ratio.den + 1) r.m_fractionalPosition).2 - (n : ℚ) < r.m_ratio
          rcases hdisj with heq | hlt
          · rw [heq]
            have hn0 : (0 : ℚ) ≤ (n : ℚ) := by positivity
            linarith
          · linarith

/-- Session version of `process_preserves_phase`. -/
lemma runCalls_preserves_phase (calls : List (Option (ℕ → ℚ) × ℕ)) :
    ∀ (r : AudioResampler), 0 ≤ r.m_fractionalPosition → r.m_fractionalPosition < r.m_ratio →
      (runCalls r calls).m_ratio = r.m_ratio ∧
      0 ≤ (runCalls r calls).m_fractionalPosition ∧
      (runCalls r calls).m_fractionalPosition < r.m_ratio := by
  induction calls with
  | nil => intro r h0 h1; exact ⟨rfl, h0, h1⟩
  | cons cHead cs ih =>
    intro r h0 h1
    obtain ⟨hrat, hs0, hs1⟩ := process_preserves_phase r cHead.1 cHead.2 h0 h1
    obtain ⟨hrat', hs0', hs1'⟩ := ih ((r.process cHead.1 cHead.2).2) hs0 (by rw [hrat]; exact hs1)
    refine ⟨?_, ?_, ?_⟩ <;>
      simp only [runCalls, List.foldl_cons] <;>
      simp only [runCalls] at hrat' hs0' hs1'
    · rw [hrat', hrat]
    · exact hs0'
    · rw [hrat] at hs1'; exact hs1'

/-- C9: starting from a freshly constructed resampler with positive rates,
the stored fractional phase lies in `[0, ratio)` after every sequence of
`process` calls with arbitrary inputs and frame counts (hence before and
after every individual call). -/
theorem c9_phase_invariant (inRate ch outRate : ℕ)
    (hin : 0 < inRate) (hout : 0 < outRate) (calls : List (Option (ℕ → ℚ) × ℕ)) :
    0 ≤ (runCalls (AudioResampler.init inRate ch outRate) calls).m_fractionalPosition ∧
    (runCalls (AudioResampler.init inRate ch outRate) calls).m_fractionalPosition <
      (AudioResampler.init inRate ch outRate).m_ratio := by
  have hr : (0 : ℚ) < (AudioResampler.init inRate ch outRate).m_ratio := by
    show (0 : ℚ) < (inRate : ℚ) / (outRate : ℚ)
    have h1 : (0 : ℚ) < (inRate : ℚ) := by exact_mod_cast hin
    have h2 : (0 : ℚ) < (outRate : ℚ) := by exact_mod_cast hout
    positivity
  obtain ⟨-, h0, h1⟩ := runCalls_preserves_phase calls (AudioResampler.init inRate ch outRate)
    le_rfl hr
  exact ⟨h0, h1⟩

/-- Witness for `c9_phase_invariant` at a concrete session: 48 kHz stereo
down to 16 kHz, one 3-frame call. -/
theorem c9_phase_invariant_witness :
    0 < 48000 ∧ 0 < 16000 ∧
    (0 ≤ (runCalls (AudioResampler.init 48000 2 16000)
        [(some fun i => (i : ℚ), 3)]).m_fractionalPosition ∧
      (runCalls (AudioResampler.init 48000 2 16000)
        [(some fun i => (i : ℚ), 3)]).m_fractionalPosition <
        (AudioResampler.init 48000 2 16000).m_ratio) :=
  ⟨by decide, by decide,
    c9_phase_invariant 48000 2 16000 (by decide) (by decide) [(some fun i => (i : ℚ), 3)]⟩

/-! ## WhisperWrapper windowing and silence trimming (whisper_wrapper.cpp) -/

/-- `chunkSamples` in `WhisperWrapper::processLoop` (line 96):
`static_cast<size_t>(m_chunkDuration * SAMPLE_RATE)` with the default
`m_chunkDuration = 2.0f` (whisper_wrapper.h line 88), i.e. 32000. -/
def chunkSamples : ℕ := 2 * SAMPLE_RATE

/-- `threshold` in `WhisperWrapper::trimSilence` (line 214): `0.01f`. -/
def threshold : ℚ := 1 / 100

/-- `windowSize` in `trimSilence` (line 215): `SAMPLE_RATE / 20`, a 50 ms
window of 800 samples. -/
def windowSize : ℕ := SAMPLE_RATE / 20

/-- Mean absolute amplitude of the energy window starting at `i`
(trimSilence inner loops, lines 220-224 and 236-241): sum of
`|samples[j]|` over `j ∈ [i, min (i + windowSize) samples.length)`,
divided by `windowSize`.  The backward loop's window `[i - windowSize, i)`
is `windowEnergy samples (i - windowSize)`, since there `i ≤ samples.length`
always holds. -/
def windowEnergy (samples : List ℚ) (i : ℕ) : ℚ :=
  (((samples.drop i).take windowSize).map fun x => |x|).sum / (windowSize : ℚ)

/-- The forward scan bound `samples.size() - windowSize` (line 219),
computed in `size_t` arithmetic: it wraps around to a huge value when the
buffer holds fewer than `windowSize` samples. -/
def forwardLimit (samples : List ℚ) : ℕ :=
  (samples.length + (2 ^ 64 - windowSize)) % 2 ^ 64

/-- Forward scan of `trimSilence` (lines 218-230): `i` steps by
`windowSize / 2` while below `forwardLimit`; the first window whose energy
exceeds the threshold yields `start = i - windowSize / 2` (clamped to 0).
If no window exceeds the threshold the loop finishes and `start` stays 0.
The fuel passed by `trimSilence` covers every iteration of the C++ loop. -/
def scanStart (samples : List ℚ) : ℕ → ℕ → ℕ
  | 0, _ => 0
  | fuel + 1, i =>
    if i < forwardLimit samples then
      if threshold < windowEnergy samples i then
        if windowSize / 2 ≤ i then i - windowSize / 2 else 0
      else scanStart samples fuel (i + windowSize / 2)
    else 0

/-- Backward scan of `trimSilence` (lines 232-246): `i` runs from
`samples.size()` down while `i > windowSize`, stepping `windowSize / 2`;
the first window `[i - windowSize, i)` whose energy exceeds the threshold
yields `end = min (i + windowSize / 2) samples.size()`; otherwise `end`
stays `samples.size()`. -/
def scanEnd (samples : List ℚ) : ℕ → ℕ → ℕ
  | 0, _ => samples.length
  | fuel + 1, i =>
    if windowSize < i then
      if threshold < windowEnergy samples (i - windowSize) then
        min (i + windowSize / 2) samples.length
      else scanEnd samples fuel (i - windowSize / 2)
    else samples.length

/-- `WhisperWrapper::trimSilence` (lines 211-255): compute `start` by the
forward scan and `end` by the backward scan; erase the prefix before
`start` only when `start < end ∧ 0 < start` (shifting `end` down by
`start`), then truncate to `end` only when `end` is below the current
length. -/
def trimSilence (samples : List ℚ) : List ℚ :=
  if samples.length = 0 then samples
  else
    let start := scanStart samples (forwardLimit samples / (windowSize / 2) + 1) 0
    let stop := scanEnd samples (samples.length / (windowSize / 2) + 1) samples.length
    let afterErase : List ℚ × ℕ :=
      if start < stop ∧ 0 < start then (samples.drop start, stop - start) else (samples, stop)
    if afterErase.2 < afterErase.1.length then afterErase.1.take afterErase.2 else afterErase.1

/-- The dispatch decision of `processLoop` (lines 131-143): a non-empty
candidate window is silence-trimmed in place, then handed to `transcribe`
only if the trimmed window holds strictly more than `SAMPLE_RATE / 4`
(4000) samples.  Returns the samples submitted to the engine, if any. -/
def dispatchWindow (chunk : List ℚ) : Option (List ℚ) :=
  if chunk.length = 0 then none
  else
    let trimmed := trimSilence chunk
    if SAMPLE_RATE / 4 < trimmed.length then some trimmed else none

/-- `WhisperWrapper::addAudioChunk` (lines 83-93): the chunk is appended to
the shared buffer unless the wrapper is not running or the chunk is empty. -/
def addAudioChunk (running : Bool) (buffer chunk : List ℚ) : List ℚ :=
  if running = false ∨ chunk.length = 0 then buffer else buffer ++ chunk

/-- The running-branch extraction of `processLoop` (lines 117-125): when
the buffer holds at least `chunkSamples` samples, the first `chunkSamples`
become the candidate window, and the buffer is advanced by
`chunkSamples - overlap` (`overlap = SAMPLE_RATE / 2`, line 121), keeping
the trailing overlap for the next window; the erase is guarded by
`buffer.size() > overlap`. -/
def extractWindow (buffer : List ℚ) : Option (List ℚ × List ℚ) :=
  if chunkSamples ≤ buffer.length then
    some (buffer.take chunkSamples,
      if SAMPLE_RATE / 2 < buffer.length then buffer.drop (chunkSamples - SAMPLE_RATE / 2)
      else buffer)
  else none

/-- The stop branch of `processLoop` (lines 109-116): when stop has been
requested, the whole remaining buffer becomes one final candidate window
if it holds strictly more than `SAMPLE_RATE / 2` (8000) samples, and is
discarded otherwise. -/
def salvageRemainder (buffer : List ℚ) : Option (List ℚ) :=
  if SAMPLE_RATE / 2 < buffer.length then some buffer else none

/-! ## Silence-trim and dispatch claims (C1, C2, C3) -/

/-- The energy of any window of an all-zero buffer is zero. -/
lemma windowEnergy_replicate_zero (n i : ℕ) :
    windowEnergy (List.replicate n (0 : ℚ)) i = 0 := by
  simp [windowEnergy, List.drop_replicate, List.take_replicate, List.map_replicate]

/-- If no energy window exceeds the threshold, the forward scan never
breaks and `start` stays 0, whatever the fuel. -/
lemma scanStart_quiet (samples : List ℚ)
    (h : ∀ i, windowEnergy samples i ≤ threshold) :
    ∀ fuel i, scanStart samples fuel i = 0 := by
  intro fuel
  induction fuel with
  | zero => intro i; rfl
  | succ fuel ih =>
    intro i
    by_cases hi : i < forwardLimit samples
    · rw [scanStart, if_pos hi, if_neg (not_lt.mpr (h i))]
      exact ih (i + windowSize / 2)
    · rw [scanStart, if_neg hi]

/-- If no energy window exceeds the threshold, the backward scan never
breaks and `end` stays `samples.size()`, whatever the fuel. -/
lemma scanEnd_quiet (samples : List ℚ)
    (h : ∀ i, windowEnergy samples i ≤ threshold) :
    ∀ fuel i, scanEnd samples fuel i = samples.length := by
  intro fuel
  induction fuel with
  | zero => intro i; rfl
  | succ fuel ih =>
    intro i
    by_cases hi : windowSize < i
    · rw [scanEnd, if_pos hi, if_neg (not_lt.mpr (h (i - windowSize)))]
      exact ih (i - windowSize / 2)
    · rw [scanEnd, if_neg hi]

/-- On a buffer in which no energy window exceeds the threshold,
`trimSilence` changes nothing: `start` stays 0 and `end` stays the length,
so both erase guards fail. -/
lemma trimSilence_quiet (samples : List ℚ)
    (h : ∀ i, windowEnergy samples i ≤ threshold) :
    trimSilence samples = samples := by
  unfold trimSilence
  by_cases h0 : samples.length = 0
  · rw [if_pos h0]
  · rw [if_neg h0]
    simp [scanStart_quiet samples h, scanEnd_quiet samples h]

/-- `trimSilence` on an empty buffer returns it unchanged (line 212). -/
lemma trimSilence_of_length_zero (c : List ℚ) (hc : c.length = 0) :
    trimSilence c = c := by
  unfold trimSilence
  rw [if_pos hc]

/-- C1 (amended): a candidate window in which no 50 ms energy window
exceeds the threshold is returned *unchanged* by `trimSilence` (trimmed
length equals the full window length, not zero), and consequently the
Transcription Engine IS invoked on it whenever it is longer than the
4000-sample floor — in particular for every 32000-sample candidate. -/
theorem c1_silent_window_passthrough (samples : List ℚ)
    (h : ∀ i, windowEnergy samples i ≤ threshold) :
    trimSilence samples = samples ∧
    (SAMPLE_RATE / 4 < samples.length → dispatchWindow samples = some samples) := by
  have ht := trimSilence_quiet samples h
  refine ⟨ht, fun hlen => ?_⟩
  have hne : ¬ samples.length = 0 := by
    intro hc
    rw [hc] at hlen
    exact absurd hlen (by norm_num)
  unfold dispatchWindow
  rw [if_neg hne, ht, if_pos hlen]

/-- C1 counterexample: the 32000-sample all-zero candidate window (every
energy window has mean amplitude 0 ≤ 0.01): its trimmed length is 32000,
not zero, and the full window is submitted to the engine. -/
theorem c1_counterexample :
    (trimSilence (List.replicate 32000 (0 : ℚ))).length = 32000 ∧
    dispatchWindow (List.replicate 32000 (0 : ℚ)) = some (List.replicate 32000 (0 : ℚ)) := by
  have h : ∀ i, windowEnergy (List.replicate 32000 (0 : ℚ)) i ≤ threshold := by
    intro i
    rw [windowEnergy_replicate_zero]
    norm_num [threshold]
  have ht := trimSilence_quiet _ h
  constructor
  · rw [ht, List.length_replicate]
  · unfold dispatchWindow
    rw [ht, List.length_replicate]
    norm_num [SAMPLE_RATE]

/-- Witness for `c1_silent_window_passthrough` on a 16000-sample all-zero
window. -/
theorem c1_silent_window_passthrough_witness :
    trimSilence (List.replicate 16000 (0 : ℚ)) = List.replicate 16000 (0 : ℚ) ∧
    dispatchWindow (List.replicate 16000 (0 : ℚ)) = some (List.replicate 16000 (0 : ℚ)) := by
  have h : ∀ i, windowEnergy (List.replicate 16000 (0 : ℚ)) i ≤ threshold := by
    intro i
    rw [windowEnergy_replicate_zero]
    norm_num [threshold]
  have hthm := c1_silent_window_passthrough (List.replicate 16000 (0 : ℚ)) h
  exact ⟨hthm.1, hthm.2 (by rw [List.length_replicate]; norm_num [SAMPLE_RATE])⟩

/-- C2 (amended): the minimum-duration floor is strict — a trimmed window
of 4001 samples is forwarded to the engine, while trimmed windows of
exactly 4000 or of 3999 samples are discarded without invoking it
(`chunk.size() > SAMPLE_RATE / 4`, whisper_wrapper.cpp line 135). -/
theorem c2_duration_floor_boundary (chunk : List ℚ) :
    ((trimSilence chunk).length = 4001 → dispatchWindow chunk = some (trimSilence chunk)) ∧
    ((trimSilence chunk).length = 4000 → dispatchWindow chunk = none) ∧
    ((trimSilence chunk).length = 3999 → dispatchWindow chunk = none) := by
  refine ⟨fun hlen => ?_, fun hlen => ?_, fun hlen => ?_⟩
  · have hne : ¬ chunk.length = 0 := by
      intro hc
      rw [trimSilence_of_length_zero chunk hc, hc] at hlen
      exact absurd hlen (by norm_num)
    unfold dispatchWindow
    rw [if_neg hne, if_pos (by rw [hlen]; norm_num [SAMPLE_RATE])]
  · by_cases hc : chunk.length = 0
    · unfold dispatchWindow; rw [if_pos hc]
    · unfold dispatchWindow
      rw [if_neg hc, if_neg (by rw [hlen]; norm_num [SAMPLE_RATE])]
  · by_cases hc : chunk.length = 0
    · unfold dispatchWindow; rw [if_pos hc]
    · unfold dispatchWindow
      rw [if_neg hc, if_neg (by rw [hlen]; norm_num [SAMPLE_RATE])]

/-- C2 counterexample: a window whose trimmed length is exactly 4000
samples (an all-zero window of 4000 samples, which `trimSilence` leaves
unchanged) is NOT forwarded: the engine gate requires strictly more than
4000 samples. -/
theorem c2_counterexample :
    (trimSilence (List.replicate 4000 (0 : ℚ))).length = 4000 ∧
    dispatchWindow (List.replicate 4000 (0 : ℚ)) = none := by
  have h : ∀ i, windowEnergy (List.replicate 4000 (0 : ℚ)) i ≤ threshold := by
    intro i
    rw [windowEnergy_replicate_zero]
    norm_num [threshold]
  have ht := trimSilence_quiet _ h
  constructor
  · rw [ht, List.length_replicate]
  · unfold dispatchWindow
    rw [ht, List.length_replicate]
    norm_num [SAMPLE_RATE]

/-- Witness for `c2_duration_floor_boundary` at a window with trimmed
length 4001 (forwarded) — derived from the first conjunct. -/
theorem c2_duration_floor_boundary_witness :
    dispatchWindow (List.replicate 4001 (0 : ℚ)) =
      some (trimSilence (List.replicate 4001 (0 : ℚ))) := by
  apply (c2_duration_floor_boundary (List.replicate 4001 (0 : ℚ))).1
  have h : ∀ i, windowEnergy (List.replicate 4001 (0 : ℚ)) i ≤ threshold := by
    intro i
    rw [windowEnergy_replicate_zero]
    norm_num [threshold]
  rw [trimSilence_quiet _ h, List.length_replicate]

/-- C3 (amended): at stop, the remaining buffer is drained as one final
candidate window exactly when it holds strictly more than the
`SAMPLE_RATE / 2 = 8000` sample threshold; a remainder of 8000 samples or
fewer is discarded and no final window is produced
(whisper_wrapper.cpp lines 109-116). -/
theorem c3_salvage_boundary (buffer : List ℚ) :
    (SAMPLE_RATE / 2 < buffer.length → salvageRemainder buffer = some buffer) ∧
    (buffer.length ≤ SAMPLE_RATE / 2 → salvageRemainder buffer = none) := by
  unfold salvageRemainder
  exact ⟨fun h => by rw [if_pos h], fun h => by rw [if_neg (not_lt.mpr h)]⟩

/-- C3 counterexample: a remaining buffer of exactly 8000 samples (the
claimed "at least 8000" boundary) is discarded — no final window. -/
theorem c3_counterexample :
    SAMPLE_RATE / 2 ≤ (List.replicate 8000 (0 : ℚ)).length ∧
    salvageRemainder (List.replicate 8000 (0 : ℚ)) = none := by
  constructor
  · rw [List.length_replicate]
    norm_num [SAMPLE_RATE]
  · unfold salvageRemainder
    rw [if_neg (by rw [List.length_replicate]; norm_num [SAMPLE_RATE])]

/-- Witness for `c3_salvage_boundary`: a buffer of 8001 samples is
salvaged whole; one of 42 samples is discarded. -/
theorem c3_salvage_boundary_witness :
    salvageRemainder (List.replicate 8001 (0 : ℚ)) = some (List.replicate 8001 (0 : ℚ)) ∧
    salvageRemainder (List.replicate 42 (0 : ℚ)) = none :=
  ⟨(c3_salvage_boundary (List.replicate 8001 (0 : ℚ))).1
      (by rw [List.length_replicate]; norm_num [SAMPLE_RATE]),
   (c3_salvage_boundary (List.replicate 42 (0 : ℚ))).2
      (by rw [List.length_replicate]; norm_num [SAMPLE_RATE])⟩

/-! ## Windowing overlap invariant (C5) -/

/-- One event in the life of the shared sample buffer: the capture thread
appends a chunk (`addAudioChunk` under a running session), or the consumer
thread wakes and attempts one window extraction (`processLoop` lines
117-128; an attempt on a buffer below `chunkSamples` just keeps waiting). -/
inductive BufferOp where
  | append (chunk : List ℚ)
  | extract
deriving DecidableEq

/-- Run a sequence of buffer events over a running session: `buffer` is the
shared buffer, `ws` the candidate windows extracted so far, in order. -/
def runOps : List BufferOp → List ℚ → List (List ℚ) → List (List ℚ) × List ℚ
  | [], buffer, ws => (ws, buffer)
  | .append c :: rest, buffer, ws => runOps rest (addAudioChunk true buffer c) ws
  | .extract :: rest, buffer, ws =>
    match extractWindow buffer with
    | some p => runOps rest p.2 (ws ++ [p.1])
    | none => runOps rest buffer ws

/-- All samples appended over a sequence of buffer events, in order. -/
def appendedStream : List BufferOp → List ℚ
  | [] => []
  | .append c :: rest => c ++ appendedStream rest
  | .extract :: rest => appendedStream rest

/-- Concatenation of a window list that keeps the first window whole and
drops the leading `SAMPLE_RATE / 2` overlap samples of every later one. -/
def reconstruct : List (List ℚ) → List ℚ
  | [] => []
  | w :: ws => w ++ (ws.map fun v => v.drop (SAMPLE_RATE / 2)).flatten

lemma chunkSamples_eq : chunkSamples = 32000 := rfl

lemma overlap_eq : SAMPLE_RATE / 2 = 8000 := rfl

lemma advance_eq : chunkSamples - SAMPLE_RATE / 2 = 24000 := rfl

lemma addAudioChunk_running (buf c : List ℚ) : addAudioChunk true buf c = buf ++ c := by
  unfold addAudioChunk
  by_cases hc : c.length = 0
  · rw [List.length_eq_zero.mp hc]
    simp
  · simp [hc]

lemma reconstruct_snoc (ws : List (List ℚ)) (f : List ℚ) (h : ws ≠ []) :
    reconstruct (ws ++ [f]) = reconstruct ws ++ f.drop (SAMPLE_RATE / 2) := by
  cases ws with
  | nil => exact absurd rfl h
  | cons w tail =>
    show reconstruct (w :: (tail ++ [f])) = reconstruct (w :: tail) ++ _
    simp [reconstruct, List.map_append, List.flatten_append]

/-- Bookkeeping invariant relating the extracted windows and the current
buffer to the stream `A` appended so far: either nothing was extracted and
the buffer is the whole stream, or `j ≥ 1` windows were extracted, the
buffer is the stream minus `j` advances of
`chunkSamples - overlap = 24000`, and the overlap-aware reconstruction is
the prefix of the stream up to the last extracted window's end. -/
def WindowInv (A : List ℚ) (ws : List (List ℚ)) (buf : List ℚ) : Prop :=
  (ws = [] ∧ buf = A) ∨
  (∃ j : ℕ, 1 ≤ j ∧ ws ≠ [] ∧
    buf = A.drop (24000 * j) ∧
    24000 * j + 8000 ≤ A.length ∧
    reconstruct ws = A.take (24000 * j + 8000))

lemma windowInv_append (A buf c : List ℚ) (ws : List (List ℚ))
    (h : WindowInv A ws buf) : WindowInv (A ++ c) ws (buf ++ c) := by
  rcases h with ⟨hws, hbuf⟩ | ⟨j, hj, hne, hbuf, hlen, hrec⟩
  · exact Or.inl ⟨hws, by rw [hbuf]⟩
  · refine Or.inr ⟨j, hj, hne, ?_, ?_, ?_⟩
    · rw [hbuf, List.drop_append_of_le_length (by omega)]
    · rw [List.length_append]; omega
    · rw [hrec, List.take_append_of_le_length (by omega)]

lemma windowInv_extract (A buf : List ℚ) (ws : List (List ℚ)) (p : List ℚ × List ℚ)
    (hE : extractWindow buf = some p) (h : WindowInv A ws buf) :
    WindowInv A (ws ++ [p.1]) p.2 := by
  unfold extractWindow at hE
  by_cases hlen : chunkSamples ≤ buf.length
  · rw [chunkSamples_eq] at hlen
    rw [if_pos (by rw [chunkSamples_eq]; exact hlen)] at hE
    rw [if_pos (by rw [overlap_eq]; omega)] at hE
    obtain rfl : p = (buf.take chunkSamples, buf.drop (chunkSamples - SAMPLE_RATE / 2)) :=
      (Option.some.inj hE).symm
    rcases h with ⟨hws, hbuf⟩ | ⟨j, hj, hne, hbuf, hlenA, hrec⟩
    · subst hws
      subst hbuf
      refine Or.inr ⟨1, le_rfl, by simp, ?_, by omega, ?_⟩
      · show buf.drop (chunkSamples - SAMPLE_RATE / 2) = buf.drop (24000 * 1)
        rw [advance_eq, mul_one]
      · show reconstruct [buf.take chunkSamples] = buf.take (24000 * 1 + 8000)
        have hr : reconstruct [buf.take chunkSamples] = buf.take chunkSamples := by
          simp [reconstruct]
        rw [hr, chunkSamples_eq]
    · have hblen : buf.length = A.length - 24000 * j := by
        rw [hbuf, List.length_drop]
      refine Or.inr ⟨j + 1, by omega, by simp, ?_, ?_, ?_⟩
      · show buf.drop (chunkSamples - SAMPLE_RATE / 2) = A.drop (24000 * (j + 1))
        rw [advance_eq, hbuf, List.drop_drop,
          show 24000 * j + 24000 = 24000 * (j + 1) from by ring]
      · show 24000 * (j + 1) + 8000 ≤ A.length
        omega
      · show reconstruct (ws ++ [buf.take chunkSamples]) = A.take (24000 * (j + 1) + 8000)
        rw [reconstruct_snoc ws _ hne, hrec, hbuf, chunkSamples_eq, overlap_eq,
          List.drop_take, List.drop_drop,
          show (32000 - 8000 : ℕ) = 24000 from by norm_num, ← List.take_add,
          show 24000 * j + 8000 + 24000 = 24000 * (j + 1) + 8000 from by ring]
  · rw [if_neg hlen] at hE
    exact absurd hE (by simp)

lemma runOps_windowInv (ops : List BufferOp) :
    ∀ (A buf : List ℚ) (ws : List (List ℚ)), WindowInv A ws buf →
      WindowInv (A ++ appendedStream ops) (runOps ops buf ws).1 (runOps ops buf ws).2 := by
  induction ops with
  | nil =>
    intro A buf ws h
    simpa [runOps, appendedStream] using h
  | cons op rest ih =>
    intro A buf ws h
    cases op with
    | append c =>
      have h3 := ih (A ++ c) (buf ++ c) ws (windowInv_append A buf c ws h)
      rw [List.append_assoc] at h3
      simpa [runOps, appendedStream, addAudioChunk_running] using h3
    | extract =>
      cases hE : extractWindow buf with
      | none =>
        have h3 := ih A buf ws h
        simpa only [runOps, hE, appendedStream] using h3
      | some p =>
        have h3 := ih A p.2 (ws ++ [p.1]) (windowInv_extract A buf ws p hE h)
        simpa only [runOps, hE, appendedStream] using h3

lemma windowInv_salvage (A : List ℚ) (ws : List (List ℚ)) (buf : List ℚ)
    (h : WindowInv A ws buf) :
    reconstruct (ws ++ (salvageRemainder buf).toList) =
      A.take (reconstruct (ws ++ (salvageRemainder buf).toList)).length ∧
    A.length ≤ (reconstruct (ws ++ (salvageRemainder buf).toList)).length + SAMPLE_RATE / 2 := by
  unfold salvageRemainder
  by_cases hs : SAMPLE_RATE / 2 < buf.length
  · rw [if_pos hs]
    rw [overlap_eq] at hs
    simp only [Option.toList_some]
    rcases h with ⟨hws, hbuf⟩ | ⟨j, hj, hne, hbuf, hlenA, hrec⟩
    · subst hws
      subst hbuf
      have hfull : reconstruct ([] ++ [buf]) = buf := by simp [reconstruct]
      rw [hfull]
      exact ⟨(List.take_length buf).symm, by rw [overlap_eq]; omega⟩
    · have hfull : reconstruct (ws ++ [buf]) = A := by
        rw [reconstruct_snoc ws buf hne, hrec, hbuf, overlap_eq, List.drop_drop]
        exact List.take_append_drop _ A
      rw [hfull]
      exact ⟨(List.take_length A).symm, by rw [overlap_eq]; omega⟩
  · rw [if_neg hs]
    rw [overlap_eq] at hs
    simp only [Option.toList_none, List.append_nil]
    rcases h with ⟨hws, hbuf⟩ | ⟨j, hj, hne, hbuf, hlenA, hrec⟩
    · subst hws
      subst hbuf
      constructor
      · show reconstruct [] = buf.take (reconstruct []).length
        simp [reconstruct]
      · show buf.length ≤ (reconstruct []).length + SAMPLE_RATE / 2
        have hr : reconstruct [] = ([] : List ℚ) := rfl
        rw [hr, overlap_eq]
        simp only [List.length_nil]
        omega
    · have hblen : buf.length = A.length - 24000 * j := by
        rw [hbuf, List.length_drop]
      have hAlen : A.length = 24000 * j + 8000 := by omega
      have hfull : reconstruct ws = A := by
        rw [hrec, ← hAlen, List.take_length]
      rw [hfull]
      exact ⟨(List.take_length A).symm, by rw [overlap_eq]; omega⟩

/-- C5 (amended): for every interleaving of appends and window
extractions, the first extracted window followed by the non-overlapping
trailing portion (window length minus the 8000-sample overlap) of each
later window — including the salvaged final window, when the shutdown
residual exceeds the salvage threshold — is a prefix of the appended
stream that misses at most `SAMPLE_RATE / 2 = 8000` trailing samples: the
residual *at or below* the salvage threshold at shutdown. -/
theorem c5_overlap_reconstruction (ops : List BufferOp)
    (ws : List (List ℚ)) (buf : List ℚ) (h : runOps ops [] [] = (ws, buf)) :
    reconstruct (ws ++ (salvageRemainder buf).toList) =
      (appendedStream ops).take
        (reconstruct (ws ++ (salvageRemainder buf).toList)).length ∧
    (appendedStream ops).length ≤
      (reconstruct (ws ++ (salvageRemainder buf).toList)).length + SAMPLE_RATE / 2 := by
  have hinv := runOps_windowInv ops [] [] [] (Or.inl ⟨rfl, rfl⟩)
  rw [h] at hinv
  exact windowInv_salvage _ _ _ (by simpa using hinv)

/-- C5 counterexample: appending exactly 8000 samples (the salvage
threshold itself) and stopping loses the whole stream — no window was ever
extracted and the 8000-sample residual, which is *not below* the
threshold, is discarded rather than salvaged, so the reconstruction is
empty instead of the full stream. -/
theorem c5_counterexample :
    runOps [BufferOp.append (List.replicate 8000 (1 : ℚ))] [] [] =
      ([], List.replicate 8000 (1 : ℚ)) ∧
    appendedStream [BufferOp.append (List.replicate 8000 (1 : ℚ))] =
      List.replicate 8000 (1 : ℚ) ∧
    reconstruct ([] ++ (salvageRemainder (List.replicate 8000 (1 : ℚ))).toList) = [] ∧
    (List.replicate 8000 (1 : ℚ)).length = 8000 ∧
    ¬ (List.replicate 8000 (1 : ℚ)).length < SAMPLE_RATE / 2 := by
  have hadd : addAudioChunk true [] (List.replicate 8000 (1 : ℚ)) =
      List.replicate 8000 (1 : ℚ) := by
    rw [addAudioChunk_running]
    exact List.nil_append _
  have hsal : salvageRemainder (List.replicate 8000 (1 : ℚ)) = none := by
    unfold salvageRemainder
    rw [if_neg (by rw [List.length_replicate]; norm_num [SAMPLE_RATE])]
  refine ⟨?_, ?_, ?_, ?_, ?_⟩
  · show runOps [] (addAudioChunk true [] (List.replicate 8000 (1 : ℚ))) [] = _
    rw [hadd]
    rfl
  · show List.replicate 8000 (1 : ℚ) ++ appendedStream [] = _
    rw [show appendedStream ([] : List BufferOp) = [] from rfl, List.append_nil]
  · rw [hsal]
    rfl
  · rw [List.length_replicate]
  · rw [List.length_replicate, overlap_eq]
    omega

/-- Witness for `c5_overlap_reconstruction` on a small run: append three
samples, then one (failing) extraction attempt. -/
theorem c5_overlap_reconstruction_witness :
    reconstruct (([] : List (List ℚ)) ++ (salvageRemainder [(1 : ℚ), 2, 3]).toList) =
      (appendedStream [BufferOp.append [(1 : ℚ), 2, 3], BufferOp.extract]).take
        (reconstruct (([] : List (List ℚ)) ++
          (salvageRemainder [(1 : ℚ), 2, 3]).toList)).length ∧
    (appendedStream [BufferOp.append [(1 : ℚ), 2, 3], BufferOp.extract]).length ≤
      (reconstruct (([] : List (List ℚ)) ++
        (salvageRemainder [(1 : ℚ), 2, 3]).toList)).length + SAMPLE_RATE / 2 := by
  apply c5_overlap_reconstruction [BufferOp.append [(1 : ℚ), 2, 3], BufferOp.extract] [] [(1 : ℚ), 2, 3]
  show runOps [BufferOp.extract] (addAudioChunk true [] [(1 : ℚ), 2, 3]) [] = _
  rw [addAudioChunk_running, List.nil_append]
  show (match extractWindow [(1 : ℚ), 2, 3] with
    | some p => runOps [] p.2 ([] ++ [p.1])
    | none => runOps [] [(1 : ℚ), 2, 3] []) = _
  have hE : extractWindow [(1 : ℚ), 2, 3] = none := by
    unfold extractWindow
    rw [if_neg (by norm_num [chunkSamples, SAMPLE_RATE])]
  rw [hE]
  rfl

/-! ## Capture-loop sample conversion (audio_capture.cpp, C7) -/

/-- A captured packet's payload as `AudioCapture::captureLoop` interprets
it (audio_capture.cpp lines 183-209): `floatData` for
`WAVE_FORMAT_IEEE_FLOAT` / `WAVE_FORMAT_EXTENSIBLE` (raw bytes read as
32-bit floats), `pcm16Data` for `wBitsPerSample == 16` (signed 16-bit
integers), `pcm32Data` for `wBitsPerSample == 32` (signed 32-bit
integers), and `unrecognizedData` when no branch matches. -/
inductive PacketData where
  | floatData (samples : List ℚ)
  | pcm16Data (samples : List ℤ)
  | pcm32Data (samples : List ℤ)
  | unrecognizedData
deriving DecidableEq

/-- The conversion of one packet into the `inputSamples` float block
(audio_capture.cpp lines 185-209): float data passes through, 16-bit
samples are divided by 32768, 32-bit samples by 2147483648, and an
unrecognized encoding leaves `inputSamples` empty. -/
def convertPacket : PacketData → List ℚ
  | .floatData xs => xs
  | .pcm16Data xs => xs.map fun s => (s : ℚ) / 32768
  | .pcm32Data xs => xs.map fun s => (s : ℚ) / 2147483648
  | .unrecognizedData => []

/-- The per-packet drain of `captureLoop` (lines 168-237): each packet is
converted, and only a non-empty converted block is forwarded (to the
resampler and then the callback, lines 211-222); an empty conversion —
in particular an unrecognized encoding — is skipped and the loop continues
with the next packet. -/
def capturePackets : List PacketData → List (List ℚ)
  | [] => []
  | p :: ps =>
    let inputSamples := convertPacket p
    if inputSamples.length = 0 then capturePackets ps
    else inputSamples :: capturePackets ps

/-- C7: floating-point packets pass through unchanged, 16-bit samples are
normalized by 32768, 32-bit samples by 2147483648, and an unrecognized
encoding is dropped while capture continues with the remaining packets. -/
theorem c7_packet_conversion (xs : List ℚ) (ys zs : List ℤ) (ps : List PacketData) :
    convertPacket (PacketData.floatData xs) = xs ∧
    convertPacket (PacketData.pcm16Data ys) = ys.map (fun s => (s : ℚ) / 32768) ∧
    convertPacket (PacketData.pcm32Data zs) = zs.map (fun s => (s : ℚ) / 2147483648) ∧
    capturePackets (PacketData.unrecognizedData :: ps) = capturePackets ps := by
  refine ⟨rfl, rfl, rfl, ?_⟩
  simp [capturePackets, convertPacket]

end Phantom
